import Mathlib

/-!
Verification of the decode/buffer/replay/coordinate core of pg_squeeze
(src/concurrent.c) against its natural-language specification.

The C code is shallowly embedded: machine state (the tuplestore-backed change
buffer `DecodingOutputState`, the replacement-table heap, the pending old row,
the command counter) is passed explicitly, fallible paths (`elog(ERROR, ...)`)
become `Except`, and PostgreSQL `Assert` checks are modelled as fatal
invariant-violation errors, matching assertion-enabled builds and the spec's
error taxonomy.  External PostgreSQL primitives (heap access, index scans,
logical decoding) are modelled by their documented effect on the state the
core manipulates; one WAL stream record yields the list of per-table change
events that `LogicalDecodingProcessRecord` would deliver to the plugin
callbacks for it.
-/

/-- Abstract attribute value (PostgreSQL Datum). -/
abbrev Datum := Nat

/-- In-memory heap tuple: the row image (`t_data`, one entry per stored unit),
the stored length field `t_len`, and the flag that `HeapTupleIsHeapOnly`
reads after `simple_heap_update` (whether the update stayed heap-only, i.e.
did not relocate index-visible storage).  The flag is an oracle fixed on the
tuple because the storage engine, not concurrent.c, decides it. -/
structure HeapTup where
  t_len : Nat
  t_data : List Datum
  heapOnly : Bool := false
deriving Repr, DecidableEq

/-- heap_getattr: fetch attribute `attno` (1-based, as in ScanKey sk_attno). -/
def heap_getattr (tup : HeapTup) (attno : Nat) : Datum :=
  tup.t_data.getD (attno - 1) 0

/-- ConcurrentChangeKind tag values (pg_squeeze.h enum; values distinct). -/
def PG_SQUEEZE_CHANGE_INSERT : Nat := 0

/-- UPDATE_OLD tag. -/
def PG_SQUEEZE_CHANGE_UPDATE_OLD : Nat := 1

/-- UPDATE_NEW tag. -/
def PG_SQUEEZE_CHANGE_UPDATE_NEW : Nat := 2

/-- DELETE tag. -/
def PG_SQUEEZE_CHANGE_DELETE : Nat := 3

/-- MAXALIGN(VARHDRSZ) of the varlena header preceding the record. -/
def MAXALIGN_VARHDRSZ : Nat := 8

/-- sizeof(ConcurrentChange): the fixed header (HeapTupleData copy + kind). -/
def SIZEOF_CONCURRENTCHANGE : Nat := 24

/-- One serialized change record as store_change lays it out in the
tuplestore: the varlena size header set by SET_VARSIZE, the kind tag, the
copied HeapTupleData header (its `t_len` field and heap-only flag), and the
payload bytes memcpy'd after the struct. -/
structure ConcurrentChange where
  varsize : Nat
  kind : Nat
  tup_len : Nat
  payload : List Datum
  heapOnly : Bool := false
deriving Repr, DecidableEq

/-- store_change, encoding part: build the self-describing record for one
tuple.  size = MAXALIGN(VARHDRSZ) + sizeof(ConcurrentChange) + tuple->t_len;
the tuple header and its data are copied into the record. -/
def store_change_record (kind : Nat) (tuple : HeapTup) : ConcurrentChange :=
  { varsize := MAXALIGN_VARHDRSZ + SIZEOF_CONCURRENTCHANGE + tuple.t_len
    kind := kind
    tup_len := tuple.t_len
    payload := tuple.t_data
    heapOnly := tuple.heapOnly }

/-- get_changed_tuple: rebuild an aligned tuple from a stored record.  The
code copies `sizeof(HeapTupleData)` header bytes and then memcpy's exactly
`t_len` bytes from the payload area, with no validation of the header against
the payload actually present: excess payload is ignored, and a header longer
than the payload makes the memcpy read adjacent memory (modelled as zeros). -/
def get_changed_tuple (change : ConcurrentChange) : HeapTup :=
  { t_len := change.tup_len
    t_data := change.payload.take change.tup_len ++
      List.replicate (change.tup_len - change.payload.length) 0
    heapOnly := change.heapOnly }

/-- The decoding output state fields concurrent.c manipulates: the tuplestore
contents (in append order), the nchanges counter and the data_size counter. -/
structure DecodingOutputState where
  tstore : List ConcurrentChange
  nchanges : Nat
  data_size : Nat
deriving Repr, DecidableEq

/-- store_change, buffer part: append the encoded record to the tuplestore
and do the accounting (nchanges++, data_size += size). -/
def store_change (dstate : DecodingOutputState) (kind : Nat) (tuple : HeapTup) :
    DecodingOutputState :=
  { tstore := dstate.tstore ++ [store_change_record kind tuple]
    nchanges := dstate.nchanges + 1
    data_size := dstate.data_size + (store_change_record kind tuple).varsize }

/-- Buffer counters agree with the buffer contents (maintained by
store_change and by the clear at the end of apply_concurrent_changes). -/
def dstate_wf (d : DecodingOutputState) : Prop :=
  d.nchanges = d.tstore.length ∧
  d.data_size = (d.tstore.map ConcurrentChange.varsize).sum

/-- One row of the replacement table at a physical location (ctid). -/
structure HeapRow where
  ctid : Nat
  tup : HeapTup
deriving Repr, DecidableEq

/-- The replacement table's heap. -/
structure Heap where
  rows : List HeapRow
  next_ctid : Nat
deriving Repr, DecidableEq

/-- The scan-key arguments: identity-key columns taken from the key tuple
(the loop finalizing entry->sk_argument via heap_getattr). -/
def scan_key_args (key : List Nat) (tup_key : HeapTup) : List Datum :=
  key.map (heap_getattr tup_key)

/-- index_beginscan / index_rescan / index_getnext over the identity index:
the first live row whose identity-key columns equal those of the key tuple. -/
def lookup_by_key (heap : Heap) (key : List Nat) (tup_key : HeapTup) :
    Option HeapRow :=
  heap.rows.find? (fun r => scan_key_args key r.tup == scan_key_args key tup_key)

/-- heap_insert: append the tuple at a fresh location. -/
def heap_insert_row (heap : Heap) (tup : HeapTup) : Heap :=
  { rows := heap.rows ++ [{ ctid := heap.next_ctid, tup := tup }]
    next_ctid := heap.next_ctid + 1 }

/-- simple_heap_update at ctid: a heap-only update replaces the row in
place; otherwise the new version lands at a fresh location (and the caller
re-inserts index entries for it). -/
def simple_heap_update_at (heap : Heap) (ctid : Nat) (tup : HeapTup) : Heap :=
  if tup.heapOnly then
    { heap with
      rows := heap.rows.map (fun r => if r.ctid = ctid then { r with tup := tup } else r) }
  else
    { rows := heap.rows.filter (fun r => r.ctid ≠ ctid) ++
        [{ ctid := heap.next_ctid, tup := tup }]
      next_ctid := heap.next_ctid + 1 }

/-- simple_heap_delete at ctid. -/
def simple_heap_delete_at (heap : Heap) (ctid : Nat) : Heap :=
  { heap with rows := heap.rows.filter (fun r => r.ctid ≠ ctid) }

/-- Fatal error taxonomy (every elog(ERROR)/Assert seen by the core). -/
inductive SqueezeErr where
  | corruptRecord
  | schemaChanged
  | lookupMiss
  | invariantViolation
  | unrecognizedChangeKind (kind : Nat)
  | incompleteChangeInfo
deriving Repr, DecidableEq

/-- State threaded through one replay pass of apply_concurrent_changes:
the replacement heap, the pending old row (tup_old), the bulk-insert state
flag (bistate), the command counter / active-snapshot command id advanced by
CommandCounterIncrement + UpdateActiveSnapshotCommandId, the per-pass
diagnostic counts and the count of index-entry insertions performed. -/
structure ApplyState where
  heap : Heap
  tup_old : Option HeapTup
  bistate : Bool
  command_counter : Nat
  ninserts : Nat
  nupdates : Nat
  ndeletes : Nat
  index_inserts : Nat
deriving Repr, DecidableEq

/-- The local tup_key of the UPDATE_NEW/DELETE branch: for UPDATE_NEW the
pending old row if present, else this event's own decoded row; for DELETE
always the event's own row. -/
def replay_tup_key (s : ApplyState) (change : ConcurrentChange) (tup : HeapTup) :
    HeapTup :=
  if change.kind = PG_SQUEEZE_CHANGE_UPDATE_NEW then
    match s.tup_old with
    | some t => t
    | none => tup
  else tup

/-- The per-kind dispatch of one change inside the replay loop (the body of
the while loop of apply_concurrent_changes, after the bistate drop and the
get_changed_tuple call, and before the command-counter bump).  `Assert`
checks are modelled as fatal invariant violations. -/
def apply_change_dispatch (key : List Nat) (s : ApplyState)
    (change : ConcurrentChange) (tup : HeapTup) : Except SqueezeErr ApplyState :=
  if change.kind = PG_SQUEEZE_CHANGE_UPDATE_OLD then
    if s.tup_old.isSome then .error .invariantViolation
    else .ok { s with tup_old := some tup }
  else if change.kind = PG_SQUEEZE_CHANGE_INSERT then
    if s.tup_old.isSome then .error .invariantViolation
    else
      .ok { s with
        bistate := true
        heap := heap_insert_row s.heap tup
        index_inserts := s.index_inserts + 1
        ninserts := s.ninserts + 1 }
  else if change.kind = PG_SQUEEZE_CHANGE_UPDATE_NEW ∨
      change.kind = PG_SQUEEZE_CHANGE_DELETE then
    if change.kind = PG_SQUEEZE_CHANGE_DELETE ∧ s.tup_old.isSome then
      .error .invariantViolation
    else
      match lookup_by_key s.heap key (replay_tup_key s change tup) with
      | none => .error .lookupMiss
      | some row =>
        if change.kind = PG_SQUEEZE_CHANGE_UPDATE_NEW then
          .ok { s with
            heap := simple_heap_update_at s.heap row.ctid tup
            index_inserts := s.index_inserts + (if tup.heapOnly then 0 else 1)
            nupdates := s.nupdates + 1
            tup_old := none }
        else
          .ok { s with
            heap := simple_heap_delete_at s.heap row.ctid
            ndeletes := s.ndeletes + 1
            tup_old := none }
  else .error (.unrecognizedChangeKind change.kind)

/-- One iteration of the replay loop: drop the bulk-insert state if the
change is not an INSERT, decode the tuple, dispatch on the kind, and finally
(for every kind except UPDATE_OLD) advance the command counter so the next
lookup scan observes the change. -/
def apply_change (key : List Nat) (s0 : ApplyState) (change : ConcurrentChange) :
    Except SqueezeErr ApplyState :=
  match apply_change_dispatch key
      (if change.kind ≠ PG_SQUEEZE_CHANGE_INSERT ∧ s0.bistate = true then
        { s0 with bistate := false } else s0)
      change (get_changed_tuple change) with
  | .error e => .error e
  | .ok s1 =>
    .ok (if change.kind ≠ PG_SQUEEZE_CHANGE_UPDATE_OLD then
      { s1 with command_counter := s1.command_counter + 1 } else s1)

/-- The replay loop: consume the buffered changes in order; any error aborts
the pass and no further event is applied. -/
def apply_loop (key : List Nat) (s : ApplyState) :
    List ConcurrentChange → Except SqueezeErr ApplyState
  | [] => .ok s
  | c :: rest =>
    match apply_change key s c with
    | .error e => .error e
    | .ok s' => apply_loop key s' rest

/-- Aggregate per-pass counts reported for diagnostics. -/
structure ApplyCounts where
  ninserts : Nat
  nupdates : Nat
  ndeletes : Nat
deriving Repr, DecidableEq

/-- apply_concurrent_changes: if the buffer has no changes, return at once;
otherwise run the replay loop over the buffered records (tup_old and bistate
start out empty, counts at zero) and then clear the tuplestore and reset both
counters to zero.  Returns the new buffer state, the mutated heap, the final
command counter and the diagnostic counts. -/
def apply_concurrent_changes (key : List Nat) (dstate : DecodingOutputState)
    (heap : Heap) (cc : Nat) :
    Except SqueezeErr (DecodingOutputState × Heap × Nat × ApplyCounts) :=
  if dstate.nchanges = 0 then .ok (dstate, heap, cc, ⟨0, 0, 0⟩)
  else
    match apply_loop key
        { heap := heap, tup_old := none, bistate := false, command_counter := cc
          ninserts := 0, nupdates := 0, ndeletes := 0, index_inserts := 0 }
        dstate.tstore with
    | .error e => .error e
    | .ok s =>
      .ok ({ tstore := [], nchanges := 0, data_size := 0 },
        s.heap, s.command_counter, ⟨s.ninserts, s.nupdates, s.ndeletes⟩)

/-- One WAL stream record, as the decode loop sees it: the position of its
end (reader->EndRecPtr after XLogReadRecord returns it), the position it
starts at, and the change events (kind, tuple) that processing it through
LogicalDecodingProcessRecord delivers to store_change for the one relation
of interest (empty for records about other relations or with no committed
row changes). -/
structure WalRec where
  startPos : Nat
  endPos : Nat
  changes : List (Nat × HeapTup)
deriving Repr, DecidableEq

/-- Mutable state threaded through decode_concurrent_changes and
process_concurrent_changes: the caller's *startptr (0 = InvalidXLogRecPtr),
the reader's EndRecPtr (0 = invalid), the decoding output state, the
replacement heap and command counter the replay engine mutates, and the
current time as sampled by gettimeofday (one tick per record processed). -/
structure SysState where
  startptr : Nat
  endRecPtr : Nat
  dstate : DecodingOutputState
  heap : Heap
  command_counter : Nat
  now : Nat
deriving Repr, DecidableEq

/-- processing_time_elapsed: no deadline means never elapsed; otherwise the
current time has reached the deadline. -/
def processing_time_elapsed (utmost : Option Nat) (now : Nat) : Bool :=
  match utmost with
  | none => false
  | some t => decide (t ≤ now)

/-- The position half of the decode loop's condition:
(*startptr valid and below end_of_wal) or (EndRecPtr valid and below it). -/
def pos_cond (end_of_wal : Nat) (s : SysState) : Bool :=
  (s.startptr != 0 && decide (s.startptr < end_of_wal)) ||
    (s.endRecPtr != 0 && decide (s.endRecPtr < end_of_wal))

/-- Effect of XLogReadRecord + LogicalDecodingProcessRecord on one record:
*startptr is reset to invalid, the reader advances to the record's end, each
change the plugin receives for the target relation is stored into the
buffer, and time passes. -/
def read_record (r : WalRec) (s : SysState) : SysState :=
  { s with
    startptr := 0
    endRecPtr := r.endPos
    dstate := r.changes.foldl (fun d kt => store_change d kt.1 kt.2) s.dstate
    now := s.now + 1 }

/-- The decode loop: while the cursor is below end_of_wal and the buffer's
data_size is below the maintenance_work_mem threshold (checked only here, at
the top of the loop), read and process the next record, then break if the
deadline has passed.  The WAL is the list of records not yet read; when it
is exhausted the loop can make no progress and the state is returned as is
(under the stream-coverage hypotheses used below the loop condition is
already false at that point). -/
def decode_loop (end_of_wal threshold : Nat) (must_complete : Option Nat) :
    List WalRec → SysState → List WalRec × SysState
  | [], s => ([], s)
  | r :: rest, s =>
    if pos_cond end_of_wal s && decide (s.dstate.data_size < threshold) then
      let s' := read_record r s
      if processing_time_elapsed must_complete s'.now then (rest, s')
      else decode_loop end_of_wal threshold must_complete rest s'
    else (r :: rest, s)

/-- decode_concurrent_changes: run the loop, then return true iff no changes
within the given limits remain, literally EndRecPtr invalid or at/after
end_of_wal.  (Cache invalidation, the resource-owner swap and the restore on
error paths have no effect on the state modelled here; the confirmed source
position is not modelled.) -/
def decode_concurrent_changes (end_of_wal threshold : Nat)
    (must_complete : Option Nat) (wal : List WalRec) (s : SysState) :
    Bool × List WalRec × SysState :=
  let out := decode_loop end_of_wal threshold must_complete wal s
  ((out.2.endRecPtr == 0) || decide (end_of_wal ≤ out.2.endRecPtr), out.1, out.2)

/-- The WAL records form a contiguous chain starting at the given position,
each record ending strictly after it starts, and once the list is exhausted
the position has reached end_of_wal (the stream covers the requested bound:
XLogReadRecord never comes up empty below it). -/
def stream_ok (end_of_wal : Nat) : Nat → List WalRec → Bool
  | pos, [] => decide (end_of_wal ≤ pos)
  | pos, r :: rest =>
    decide (r.startPos = pos) && decide (pos < r.endPos) &&
      stream_ok end_of_wal r.endPos rest

/-- The position the next read would start from: *startptr when valid,
otherwise the reader's EndRecPtr. -/
def cur_pos (s : SysState) : Nat :=
  if s.startptr ≠ 0 then s.startptr else s.endRecPtr

/-- No undecoded data remains below the end bound: every unread record
starts at or after it. -/
def no_undecoded_below (end_of_wal : Nat) (wal : List WalRec) : Bool :=
  wal.all (fun r => decide (end_of_wal ≤ r.startPos))

/-- The logical-decoding plugin's change callback (plugin_change), for one
ReorderBufferChange of the relation filter result `relid_match`:
the list of store_change calls it makes, in order.  Incomplete tuple
information is a fatal error; the unreachable default arm (Assert(0)) is
modelled as an invariant violation. -/
inductive ReorderBufferChangeAction where
  | insert
  | update
  | delete
  | internalOther
deriving Repr, DecidableEq

/-- A reorder-buffer change record as delivered to the plugin. -/
structure ReorderBufferChange where
  action : ReorderBufferChangeAction
  oldtuple : Option HeapTup
  newtuple : Option HeapTup
deriving Repr, DecidableEq

/-- plugin_change: filter on the relation, then store INSERT from the new
tuple, UPDATE as UPDATE_OLD (only when an old tuple was captured)
immediately followed by UPDATE_NEW, and DELETE from the old tuple. -/
def plugin_change (relid_match : Bool) (change : ReorderBufferChange) :
    Except SqueezeErr (List (Nat × HeapTup)) :=
  if relid_match = false then .ok []
  else
    match change.action with
    | .insert =>
      match change.newtuple with
      | none => .error .incompleteChangeInfo
      | some t => .ok [(PG_SQUEEZE_CHANGE_INSERT, t)]
    | .update =>
      match change.newtuple with
      | none => .error .incompleteChangeInfo
      | some nt =>
        match change.oldtuple with
        | some ot =>
          .ok [(PG_SQUEEZE_CHANGE_UPDATE_OLD, ot), (PG_SQUEEZE_CHANGE_UPDATE_NEW, nt)]
        | none => .ok [(PG_SQUEEZE_CHANGE_UPDATE_NEW, nt)]
    | .delete =>
      match change.oldtuple with
      | none => .error .incompleteChangeInfo
      | some t => .ok [(PG_SQUEEZE_CHANGE_DELETE, t)]
    | .internalOther => .error .invariantViolation

/-- process_concurrent_changes: repeat decode, then return an incomplete
result if the deadline has passed, skip the rest of the iteration if nothing
was buffered, otherwise re-check catalog consistency (the external checker
is modelled by the boolean oracle cat_ok; a mismatch is fatal) and replay
the buffered changes; stop successfully once a decode call reported done.
The fuel argument only bounds the number of iterations of the model
(`none` = ran out of fuel); CHECK_FOR_INTERRUPTS is not modelled. -/
def process_loop (end_of_wal threshold : Nat) (must_complete : Option Nat)
    (key : List Nat) (cat_ok : Bool) :
    Nat → List WalRec → SysState → Except SqueezeErr (Option Bool × List WalRec × SysState)
  | 0, wal, s => .ok (none, wal, s)
  | fuel + 1, wal, s =>
    let dres := decode_concurrent_changes end_of_wal threshold must_complete wal s
    if processing_time_elapsed must_complete dres.2.2.now then
      .ok (some false, dres.2.1, dres.2.2)
    else if dres.2.2.dstate.nchanges = 0 then
      (if dres.1 then .ok (some true, dres.2.1, dres.2.2)
       else process_loop end_of_wal threshold must_complete key cat_ok fuel dres.2.1 dres.2.2)
    else if cat_ok = false then .error .schemaChanged
    else
      match apply_concurrent_changes key dres.2.2.dstate dres.2.2.heap
          dres.2.2.command_counter with
      | .error e => .error e
      | .ok (d2, h2, cc2, _) =>
        let s2 := { dres.2.2 with dstate := d2, heap := h2, command_counter := cc2 }
        if dres.1 then .ok (some true, dres.2.1, s2)
        else process_loop end_of_wal threshold must_complete key cat_ok fuel dres.2.1 s2

/-- The shapes (as kind sequences) a single plugin_change call can append to
the buffer. -/
abbrev plugin_block_kinds (ks : List Nat) : Prop :=
  ks = [] ∨ ks = [PG_SQUEEZE_CHANGE_INSERT] ∨
  ks = [PG_SQUEEZE_CHANGE_UPDATE_NEW] ∨
  ks = [PG_SQUEEZE_CHANGE_UPDATE_OLD, PG_SQUEEZE_CHANGE_UPDATE_NEW] ∨
  ks = [PG_SQUEEZE_CHANGE_DELETE]

/-- Every UPDATE_OLD in the kind sequence is immediately followed by an
UPDATE_NEW. -/
def update_old_paired (ks : List Nat) : Prop :=
  ∀ i, ks[i]? = some PG_SQUEEZE_CHANGE_UPDATE_OLD →
    ks[i + 1]? = some PG_SQUEEZE_CHANGE_UPDATE_NEW

/-- store_change preserves the counters/contents agreement. -/
theorem store_change_preserves_wf (d : DecodingOutputState) (kind : Nat)
    (tuple : HeapTup) (h : dstate_wf d) : dstate_wf (store_change d kind tuple) := by
  obtain ⟨h1, h2⟩ := h
  constructor
  · simp [store_change, h1]
  · simp [store_change, h2]

/-- The bulk-insert-state drop at the top of the replay loop body touches
nothing but the bistate flag. -/
theorem bistate_drop_fields (s0 : ApplyState) (change : ConcurrentChange) :
    (if change.kind ≠ PG_SQUEEZE_CHANGE_INSERT ∧ s0.bistate = true then
        { s0 with bistate := false } else s0).heap = s0.heap ∧
    (if change.kind ≠ PG_SQUEEZE_CHANGE_INSERT ∧ s0.bistate = true then
        { s0 with bistate := false } else s0).tup_old = s0.tup_old ∧
    (if change.kind ≠ PG_SQUEEZE_CHANGE_INSERT ∧ s0.bistate = true then
        { s0 with bistate := false } else s0).command_counter = s0.command_counter := by
  split <;> simp

/-- The dispatch never touches the command counter (the bump happens after
it, in apply_change). -/
theorem apply_change_dispatch_counter (key : List Nat) (s : ApplyState)
    (change : ConcurrentChange) (tup : HeapTup) (s1 : ApplyState)
    (h : apply_change_dispatch key s change tup = .ok s1) :
    s1.command_counter = s.command_counter := by
  unfold apply_change_dispatch at h
  repeat' split at h
  all_goals
    first
    | (injection h with h; cases h; rfl)
    | injection h

/-- Concrete tuples and heaps used to witness the claims on concrete runs. -/
def tupA : HeapTup := { t_len := 2, t_data := [1, 10] }

/-- The updated version of tupA (same identity-key column 1). -/
def tupA2 : HeapTup := { t_len := 2, t_data := [1, 11] }

/-- A second row. -/
def tupB : HeapTup := { t_len := 2, t_data := [2, 20] }

/-- A tuple whose identity key matches nothing in heapA. -/
def tupMiss : HeapTup := { t_len := 2, t_data := [5, 50] }

/-- Empty replacement heap. -/
def heap0 : Heap := { rows := [], next_ctid := 1 }

/-- Heap holding just tupA. -/
def heapA : Heap := { rows := [{ ctid := 1, tup := tupA }], next_ctid := 2 }

/-- Initial replay state over the empty heap. -/
def apply_state0 : ApplyState :=
  { heap := heap0, tup_old := none, bistate := false, command_counter := 0
    ninserts := 0, nupdates := 0, ndeletes := 0, index_inserts := 0 }

/-- Initial replay state over heapA. -/
def apply_stateA : ApplyState := { apply_state0 with heap := heapA }

/-- Replay state over heapA with a pending old row. -/
def apply_stateA_pending : ApplyState := { apply_stateA with tup_old := some tupA }

/-- C2: after every replay pass that completes without error, the change
buffer is exactly empty: the tuplestore holds nothing and both the event
count and the aggregate byte size are 0, for any mix of event kinds.  The
hypothesis says the buffer counters agree with its contents, which
store_change maintains (store_change_preserves_wf) and the end-of-pass clear
re-establishes. -/
theorem buffer_empty_after_replay (key : List Nat) (dstate : DecodingOutputState)
    (heap : Heap) (cc : Nat) (out : DecodingOutputState × Heap × Nat × ApplyCounts)
    (hwf : dstate_wf dstate)
    (h : apply_concurrent_changes key dstate heap cc = .ok out) :
    out.1.nchanges = 0 ∧ out.1.data_size = 0 ∧ out.1.tstore = [] := by
  obtain ⟨h1, h2⟩ := hwf
  unfold apply_concurrent_changes at h
  by_cases h0 : dstate.nchanges = 0
  · have hts : dstate.tstore = [] := by
      have := h1.symm.trans h0
      exact List.length_eq_zero.mp this
    simp [h0] at h
    rw [← h]
    refine ⟨h0, ?_, hts⟩
    rw [h2, hts]
    simp
  · simp [h0] at h
    rcases hl : apply_loop key
        { heap := heap, tup_old := none, bistate := false, command_counter := cc
          ninserts := 0, nupdates := 0, ndeletes := 0, index_inserts := 0 }
        dstate.tstore with e | s
    · rw [hl] at h
      exact absurd h (by simp)
    · rw [hl] at h
      simp at h
      rw [← h]
      exact ⟨rfl, rfl, rfl⟩

/-- The buffered single-insert state used to witness C2. -/
def dstateW : DecodingOutputState :=
  store_change { tstore := [], nchanges := 0, data_size := 0 }
    PG_SQUEEZE_CHANGE_INSERT tupA

/-- The result of replaying dstateW onto the empty heap. -/
def outW : DecodingOutputState × Heap × Nat × ApplyCounts :=
  ({ tstore := [], nchanges := 0, data_size := 0 }, heapA, 1, ⟨1, 0, 0⟩)

/-- C2 witness: a concrete successful replay pass leaves the buffer empty. -/
theorem buffer_empty_after_replay_witness :
    dstate_wf dstateW ∧
    apply_concurrent_changes [1] dstateW heap0 0 = .ok outW ∧
    (outW.1.nchanges = 0 ∧ outW.1.data_size = 0 ∧ outW.1.tstore = []) :=
  ⟨⟨by decide, by decide⟩, by rfl,
    buffer_empty_after_replay [1] dstateW heap0 0 outW ⟨by decide, by decide⟩ (by rfl)⟩

/-- C5: consuming an UPDATE_OLD change while a pending old row is already
present fails with the invariant-violation error (the Assert on tup_old);
with no pending old row, the change only stores the decoded row as the
pending old row, touching neither the table nor the command counter, so at
most one pending old row ever exists. -/
theorem second_update_old_rejected (key : List Nat) (s : ApplyState)
    (change : ConcurrentChange)
    (hk : change.kind = PG_SQUEEZE_CHANGE_UPDATE_OLD) :
    (s.tup_old.isSome = true →
      apply_change key s change = .error .invariantViolation) ∧
    (s.tup_old = none →
      ∃ s', apply_change key s change = .ok s' ∧
        s'.tup_old = some (get_changed_tuple change) ∧
        s'.heap = s.heap ∧ s'.command_counter = s.command_counter) := by
  constructor
  · intro hp
    by_cases hb : s.bistate = true <;>
      simp [apply_change, apply_change_dispatch, hk, hp, hb,
        PG_SQUEEZE_CHANGE_UPDATE_OLD, PG_SQUEEZE_CHANGE_INSERT]
  · intro hp
    by_cases hb : s.bistate = true
    · refine ⟨{ s with bistate := false, tup_old := some (get_changed_tuple change) },
        ?_, rfl, rfl, rfl⟩
      simp [apply_change, apply_change_dispatch, hk, hp, hb,
        PG_SQUEEZE_CHANGE_UPDATE_OLD, PG_SQUEEZE_CHANGE_INSERT]
    · refine ⟨{ s with tup_old := some (get_changed_tuple change) }, ?_, rfl, rfl, rfl⟩
      simp [apply_change, apply_change_dispatch, hk, hp, hb,
        PG_SQUEEZE_CHANGE_UPDATE_OLD, PG_SQUEEZE_CHANGE_INSERT]

/-- C5 witness: a concrete second UPDATE_OLD is rejected, and a first one is
stored as the pending old row. -/
theorem second_update_old_rejected_witness :
    apply_change [1] apply_stateA_pending
      (store_change_record PG_SQUEEZE_CHANGE_UPDATE_OLD tupB) =
      .error .invariantViolation ∧
    ∃ s', apply_change [1] apply_stateA
        (store_change_record PG_SQUEEZE_CHANGE_UPDATE_OLD tupB) = .ok s' ∧
      s'.tup_old = some (get_changed_tuple
        (store_change_record PG_SQUEEZE_CHANGE_UPDATE_OLD tupB)) ∧
      s'.heap = apply_stateA.heap ∧
      s'.command_counter = apply_stateA.command_counter :=
  ⟨(second_update_old_rejected [1] apply_stateA_pending
      (store_change_record PG_SQUEEZE_CHANGE_UPDATE_OLD tupB) (by rfl)).1 (by decide),
   (second_update_old_rejected [1] apply_stateA
      (store_change_record PG_SQUEEZE_CHANGE_UPDATE_OLD tupB) (by rfl)).2 (by rfl)⟩

/-- A stored record whose length header (4 units) disagrees with the payload
actually present (1 unit). -/
def corrupt_change_rec : ConcurrentChange :=
  { varsize := MAXALIGN_VARHDRSZ + SIZEOF_CONCURRENTCHANGE + 4
    kind := PG_SQUEEZE_CHANGE_INSERT, tup_len := 4, payload := [7] }

/-- C4 counterexample: decoding a record whose header length disagrees with
the payload present does not fail at all — get_changed_tuple performs no
validation, yields a row of the header-stated length (missing units read
from adjacent memory), and the replay engine applies it as a normal insert;
no CorruptRecord error exists on this path. -/
theorem corrupt_record_not_detected :
    corrupt_change_rec.tup_len ≠ corrupt_change_rec.payload.length ∧
    get_changed_tuple corrupt_change_rec =
      { t_len := 4, t_data := [7, 0, 0, 0] } ∧
    apply_change [1] apply_state0 corrupt_change_rec =
      .ok { heap := { rows := [{ ctid := 1, tup := { t_len := 4, t_data := [7, 0, 0, 0] } }]
                      next_ctid := 2 }
            tup_old := none, bistate := true, command_counter := 1
            ninserts := 1, nupdates := 0, ndeletes := 0, index_inserts := 1 } :=
  ⟨by decide, by rfl, by rfl⟩

/-- Characterization of apply_change on an UPDATE_NEW event: the equality
lookup runs on the pending old row if present, else on the event's own
decoded row; a miss is the fatal lookup error, a hit updates the located
row, clears the pending old row and bumps the command counter. -/
theorem apply_change_update_new_eq (key : List Nat) (s : ApplyState)
    (change : ConcurrentChange)
    (hk : change.kind = PG_SQUEEZE_CHANGE_UPDATE_NEW) :
    apply_change key s change =
      match lookup_by_key s.heap key
          (s.tup_old.getD (get_changed_tuple change)) with
      | none => .error .lookupMiss
      | some row =>
        .ok { s with
          heap := simple_heap_update_at s.heap row.ctid (get_changed_tuple change)
          bistate := false
          index_inserts := s.index_inserts +
            (if (get_changed_tuple change).heapOnly then 0 else 1)
          nupdates := s.nupdates + 1
          tup_old := none
          command_counter := s.command_counter + 1 } := by
  cases ho : s.tup_old with
  | none =>
    cases hlk : lookup_by_key s.heap key (get_changed_tuple change) with
    | none =>
      by_cases hb : s.bistate = true <;>
        simp [apply_change, apply_change_dispatch, replay_tup_key, hk, ho, hb, hlk,
          PG_SQUEEZE_CHANGE_UPDATE_NEW, PG_SQUEEZE_CHANGE_UPDATE_OLD,
          PG_SQUEEZE_CHANGE_INSERT, PG_SQUEEZE_CHANGE_DELETE]
    | some row =>
      by_cases hb : s.bistate = true <;>
        simp [apply_change, apply_change_dispatch, replay_tup_key, hk, ho, hb, hlk,
          PG_SQUEEZE_CHANGE_UPDATE_NEW, PG_SQUEEZE_CHANGE_UPDATE_OLD,
          PG_SQUEEZE_CHANGE_INSERT, PG_SQUEEZE_CHANGE_DELETE]
  | some t =>
    cases hlk : lookup_by_key s.heap key t with
    | none =>
      by_cases hb : s.bistate = true <;>
        simp [apply_change, apply_change_dispatch, replay_tup_key, hk, ho, hb, hlk,
          PG_SQUEEZE_CHANGE_UPDATE_NEW, PG_SQUEEZE_CHANGE_UPDATE_OLD,
          PG_SQUEEZE_CHANGE_INSERT, PG_SQUEEZE_CHANGE_DELETE]
    | some row =>
      by_cases hb : s.bistate = true <;>
        simp [apply_change, apply_change_dispatch, replay_tup_key, hk, ho, hb, hlk,
          PG_SQUEEZE_CHANGE_UPDATE_NEW, PG_SQUEEZE_CHANGE_UPDATE_OLD,
          PG_SQUEEZE_CHANGE_INSERT, PG_SQUEEZE_CHANGE_DELETE]

/-- Characterization of apply_change on a DELETE event with no pending old
row: the equality lookup runs on the event's own decoded row; a miss is the
fatal lookup error, a hit deletes the located row and bumps the counter. -/
theorem apply_change_delete_eq (key : List Nat) (s : ApplyState)
    (change : ConcurrentChange)
    (hk : change.kind = PG_SQUEEZE_CHANGE_DELETE) (hold : s.tup_old = none) :
    apply_change key s change =
      match lookup_by_key s.heap key (get_changed_tuple change) with
      | none => .error .lookupMiss
      | some row =>
        .ok { s with
          heap := simple_heap_delete_at s.heap row.ctid
          bistate := false
          ndeletes := s.ndeletes + 1
          tup_old := none
          command_counter := s.command_counter + 1 } := by
  cases hlk : lookup_by_key s.heap key (get_changed_tuple change) with
  | none =>
    by_cases hb : s.bistate = true <;>
      simp [apply_change, apply_change_dispatch, replay_tup_key, hk, hold, hb, hlk,
        PG_SQUEEZE_CHANGE_UPDATE_NEW, PG_SQUEEZE_CHANGE_UPDATE_OLD,
        PG_SQUEEZE_CHANGE_INSERT, PG_SQUEEZE_CHANGE_DELETE]
  | some row =>
    by_cases hb : s.bistate = true <;>
      simp [apply_change, apply_change_dispatch, replay_tup_key, hk, hold, hb, hlk,
        PG_SQUEEZE_CHANGE_UPDATE_NEW, PG_SQUEEZE_CHANGE_UPDATE_OLD,
        PG_SQUEEZE_CHANGE_INSERT, PG_SQUEEZE_CHANGE_DELETE]

/-- C1: the identity-key equality lookup for a replayed UPDATE_NEW event
uses the pending old row's columns when one is present and the event's own
row image otherwise; a DELETE event's lookup uses its own row image; and
after an UPDATE_NEW is applied the pending old row is cleared. -/
theorem update_delete_lookup_key (key : List Nat) (s : ApplyState)
    (change : ConcurrentChange) :
    (change.kind = PG_SQUEEZE_CHANGE_UPDATE_NEW →
      (∀ s', apply_change key s change = .ok s' → s'.tup_old = none) ∧
      (lookup_by_key s.heap key
          (s.tup_old.getD (get_changed_tuple change)) = none →
        apply_change key s change = .error .lookupMiss) ∧
      (∀ row, lookup_by_key s.heap key
          (s.tup_old.getD (get_changed_tuple change)) = some row →
        ∃ s', apply_change key s change = .ok s' ∧
          s'.heap = simple_heap_update_at s.heap row.ctid (get_changed_tuple change) ∧
          s'.tup_old = none)) ∧
    (change.kind = PG_SQUEEZE_CHANGE_DELETE → s.tup_old = none →
      (lookup_by_key s.heap key (get_changed_tuple change) = none →
        apply_change key s change = .error .lookupMiss) ∧
      (∀ row, lookup_by_key s.heap key (get_changed_tuple change) = some row →
        ∃ s', apply_change key s change = .ok s' ∧
          s'.heap = simple_heap_delete_at s.heap row.ctid)) := by
  constructor
  · intro hk
    have heq := apply_change_update_new_eq key s change hk
    refine ⟨?_, ?_, ?_⟩
    · intro s' h
      rw [heq] at h
      cases hlk : lookup_by_key s.heap key
          (s.tup_old.getD (get_changed_tuple change)) with
      | none => rw [hlk] at h; injection h
      | some row =>
        rw [hlk] at h
        injection h with h
        rw [← h]
    · intro hmiss
      rw [heq, hmiss]
    · intro row hlk
      rw [heq, hlk]
      exact ⟨_, rfl, rfl, rfl⟩
  · intro hk hold
    have heq := apply_change_delete_eq key s change hk hold
    refine ⟨?_, ?_⟩
    · intro hmiss
      rw [heq, hmiss]
    · intro row hlk
      rw [heq, hlk]
      exact ⟨_, rfl, rfl⟩

/-- C1 witness: on a concrete heap, an UPDATE_NEW consumed with a pending
old row locates the row named by that pending row and clears it, and a
DELETE locates the row named by its own image. -/
theorem update_delete_lookup_key_witness :
    (∃ s', apply_change [1] apply_stateA_pending
        (store_change_record PG_SQUEEZE_CHANGE_UPDATE_NEW tupA2) = .ok s' ∧
      s'.heap = simple_heap_update_at apply_stateA_pending.heap 1
        (get_changed_tuple (store_change_record PG_SQUEEZE_CHANGE_UPDATE_NEW tupA2)) ∧
      s'.tup_old = none) ∧
    (∃ s', apply_change [1] apply_stateA
        (store_change_record PG_SQUEEZE_CHANGE_DELETE tupA) = .ok s' ∧
      s'.heap = simple_heap_delete_at apply_stateA.heap 1) :=
  ⟨((update_delete_lookup_key [1] apply_stateA_pending
      (store_change_record PG_SQUEEZE_CHANGE_UPDATE_NEW tupA2)).1 (by rfl)).2.2
      { ctid := 1, tup := tupA } (by decide),
   ((update_delete_lookup_key [1] apply_stateA
      (store_change_record PG_SQUEEZE_CHANGE_DELETE tupA)).2 (by rfl) (by rfl)).2
      { ctid := 1, tup := tupA } (by decide)⟩

/-- C8: an UPDATE_NEW or DELETE event whose identity-key equality scan finds
no matching row fails with the fatal lookup-miss error, and the replay loop
then aborts without applying any further event from the buffer. -/
theorem lookup_miss_aborts_replay (key : List Nat) (s : ApplyState)
    (change : ConcurrentChange) (rest : List ConcurrentChange)
    (hkind : change.kind = PG_SQUEEZE_CHANGE_UPDATE_NEW ∨
      change.kind = PG_SQUEEZE_CHANGE_DELETE)
    (hold : change.kind = PG_SQUEEZE_CHANGE_DELETE → s.tup_old = none)
    (hmiss : lookup_by_key s.heap key
      (if change.kind = PG_SQUEEZE_CHANGE_UPDATE_NEW then
        s.tup_old.getD (get_changed_tuple change)
      else get_changed_tuple change) = none) :
    apply_change key s change = .error .lookupMiss ∧
    apply_loop key s (change :: rest) = .error .lookupMiss := by
  have hstep : apply_change key s change = .error .lookupMiss := by
    rcases hkind with hk | hk
    · rw [apply_change_update_new_eq key s change hk]
      rw [if_pos hk] at hmiss
      rw [hmiss]
    · have hd : ¬change.kind = PG_SQUEEZE_CHANGE_UPDATE_NEW := by
        rw [hk]; decide
      rw [apply_change_delete_eq key s change hk (hold hk)]
      rw [if_neg hd] at hmiss
      rw [hmiss]
  exact ⟨hstep, by simp [apply_loop, hstep]⟩

/-- C8 witness: deleting a row whose identity key matches nothing in the
concrete heap is a fatal lookup miss, and a following insert in the same
buffer is never applied. -/
theorem lookup_miss_aborts_replay_witness :
    apply_change [1] apply_stateA
      (store_change_record PG_SQUEEZE_CHANGE_DELETE tupMiss) = .error .lookupMiss ∧
    apply_loop [1] apply_stateA
      [store_change_record PG_SQUEEZE_CHANGE_DELETE tupMiss,
       store_change_record PG_SQUEEZE_CHANGE_INSERT tupB] = .error .lookupMiss :=
  lookup_miss_aborts_replay [1] apply_stateA
    (store_change_record PG_SQUEEZE_CHANGE_DELETE tupMiss)
    [store_change_record PG_SQUEEZE_CHANGE_INSERT tupB]
    (Or.inr (by rfl)) (fun _ => rfl) (by decide)

/-- The command counter after one successfully applied change: bumped by
one unless the change was UPDATE_OLD. -/
theorem apply_change_counter (key : List Nat) (s : ApplyState)
    (change : ConcurrentChange) (s' : ApplyState)
    (h : apply_change key s change = .ok s') :
    s'.command_counter = s.command_counter +
      (if change.kind = PG_SQUEEZE_CHANGE_UPDATE_OLD then 0 else 1) := by
  unfold apply_change at h
  cases hd : apply_change_dispatch key
      (if change.kind ≠ PG_SQUEEZE_CHANGE_INSERT ∧ s.bistate = true then
        { s with bistate := false } else s) change (get_changed_tuple change) with
  | error e => rw [hd] at h; injection h
  | ok s1 =>
    rw [hd] at h
    injection h with h
    have hc1 := apply_change_dispatch_counter key _ change (get_changed_tuple change) s1 hd
    have hc0 := (bistate_drop_fields s change).2.2
    rw [hc0] at hc1
    by_cases hUO : change.kind = PG_SQUEEZE_CHANGE_UPDATE_OLD
    · rw [← h]
      simp [hUO, hc1]
    · rw [← h]
      simp [hUO, hc1]

/-- The command counter across a successful replay loop: advanced exactly
once per non-UPDATE_OLD event. -/
theorem apply_loop_counter (key : List Nat) :
    ∀ (changes : List ConcurrentChange) (s s' : ApplyState),
      apply_loop key s changes = .ok s' →
      s'.command_counter = s.command_counter +
        (changes.filter (fun c => c.kind != PG_SQUEEZE_CHANGE_UPDATE_OLD)).length := by
  intro changes
  induction changes with
  | nil =>
    intro s s' h
    unfold apply_loop at h
    injection h with h
    rw [← h]
    simp
  | cons c rest ih =>
    intro s s' h
    unfold apply_loop at h
    cases hc : apply_change key s c with
    | error e => rw [hc] at h; injection h
    | ok s1 =>
      rw [hc] at h
      have h1 := apply_change_counter key s c s1 hc
      have h2 := ih s1 s' h
      by_cases hUO : c.kind = PG_SQUEEZE_CHANGE_UPDATE_OLD
      · have hb : (c.kind != PG_SQUEEZE_CHANGE_UPDATE_OLD) = false := by simp [hUO]
        rw [List.filter_cons, hb]
        rw [if_pos hUO] at h1
        simp only [Bool.false_eq_true, if_false]
        omega
      · have hb : (c.kind != PG_SQUEEZE_CHANGE_UPDATE_OLD) = true := by simp [hUO]
        rw [List.filter_cons, hb]
        rw [if_neg hUO] at h1
        simp only [if_true, List.length_cons]
        omega

/-- C9: during a replay pass the visibility counter (command counter plus
active-snapshot command id) advances exactly once after each applied
INSERT, UPDATE_NEW or DELETE event, never after an UPDATE_OLD event, and is
monotonically non-decreasing across the pass. -/
theorem visibility_counter_advance :
    (∀ (key : List Nat) (s : ApplyState) (change : ConcurrentChange)
        (s' : ApplyState), apply_change key s change = .ok s' →
      s'.command_counter = s.command_counter +
        (if change.kind = PG_SQUEEZE_CHANGE_UPDATE_OLD then 0 else 1)) ∧
    (∀ (key : List Nat) (changes : List ConcurrentChange) (s s' : ApplyState),
      apply_loop key s changes = .ok s' →
      s'.command_counter = s.command_counter +
        (changes.filter (fun c => c.kind != PG_SQUEEZE_CHANGE_UPDATE_OLD)).length ∧
      s.command_counter ≤ s'.command_counter) := by
  refine ⟨apply_change_counter, ?_⟩
  intro key changes s s' h
  have := apply_loop_counter key changes s s' h
  exact ⟨this, by omega⟩

/-- The state after replaying the pair UPDATE_OLD(tupA), UPDATE_NEW(tupA2)
onto heapA. -/
def apply_stateA_updated : ApplyState :=
  { heap := { rows := [{ ctid := 2, tup := tupA2 }], next_ctid := 3 }
    tup_old := none, bistate := false, command_counter := 1
    ninserts := 0, nupdates := 1, ndeletes := 0, index_inserts := 1 }

/-- C9 witness: a concrete insert bumps the counter once, and a concrete
UPDATE_OLD/UPDATE_NEW pair bumps it exactly once across the pass. -/
theorem visibility_counter_advance_witness :
    ({ heap := heapA, tup_old := none, bistate := true, command_counter := 1
       ninserts := 1, nupdates := 0, ndeletes := 0,
       index_inserts := 1 : ApplyState }.command_counter =
      apply_state0.command_counter +
        (if (store_change_record PG_SQUEEZE_CHANGE_INSERT tupA).kind =
            PG_SQUEEZE_CHANGE_UPDATE_OLD then 0 else 1)) ∧
    (apply_stateA_updated.command_counter = apply_stateA.command_counter +
      ([store_change_record PG_SQUEEZE_CHANGE_UPDATE_OLD tupA,
        store_change_record PG_SQUEEZE_CHANGE_UPDATE_NEW tupA2].filter
          (fun c => c.kind != PG_SQUEEZE_CHANGE_UPDATE_OLD)).length ∧
      apply_stateA.command_counter ≤ apply_stateA_updated.command_counter) :=
  ⟨visibility_counter_advance.1 [1] apply_state0
      (store_change_record PG_SQUEEZE_CHANGE_INSERT tupA) _ (by rfl),
   visibility_counter_advance.2 [1]
      [store_change_record PG_SQUEEZE_CHANGE_UPDATE_OLD tupA,
       store_change_record PG_SQUEEZE_CHANGE_UPDATE_NEW tupA2]
      apply_stateA apply_stateA_updated (by rfl)⟩

/-- C4 amended: decoding a stored change record never fails and performs no
validation of the length header against the payload actually present; it
always produces a row whose length is exactly the header-stated length. -/
theorem get_changed_tuple_no_validation (change : ConcurrentChange) :
    (get_changed_tuple change).t_len = change.tup_len ∧
    (get_changed_tuple change).t_data.length = change.tup_len := by
  refine ⟨rfl, ?_⟩
  simp [get_changed_tuple]
  omega

/-- The empty sequence is paired. -/
theorem update_old_paired_nil : update_old_paired [] := by
  intro i hi
  simp at hi

/-- Prepending any non-UPDATE_OLD kind preserves pairing. -/
theorem update_old_paired_cons_single (k : Nat)
    (hk : k ≠ PG_SQUEEZE_CHANGE_UPDATE_OLD) (rest : List Nat)
    (h : update_old_paired rest) : update_old_paired (k :: rest) := by
  intro i hi
  cases i with
  | zero =>
    simp at hi
    exact absurd hi hk
  | succ n =>
    simp only [List.getElem?_cons_succ] at hi ⊢
    exact h n hi

/-- Prepending a back-to-back UPDATE_OLD/UPDATE_NEW pair preserves
pairing. -/
theorem update_old_paired_cons_pair (rest : List Nat) (h : update_old_paired rest) :
    update_old_paired (PG_SQUEEZE_CHANGE_UPDATE_OLD ::
      PG_SQUEEZE_CHANGE_UPDATE_NEW :: rest) := by
  intro i hi
  match i with
  | 0 => simp
  | 1 =>
    simp [PG_SQUEEZE_CHANGE_UPDATE_NEW, PG_SQUEEZE_CHANGE_UPDATE_OLD] at hi
  | n + 2 =>
    simp only [List.getElem?_cons_succ] at hi ⊢
    exact h n hi

/-- A concatenation of plugin blocks is paired. -/
theorem update_old_paired_flatten :
    ∀ (blocks : List (List Nat)), (∀ b ∈ blocks, plugin_block_kinds b) →
      update_old_paired blocks.flatten := by
  intro blocks
  induction blocks with
  | nil =>
    intro _
    simpa [List.flatten] using update_old_paired_nil
  | cons b bs ih =>
    intro hb
    have h1 := hb b (List.mem_cons_self _ _)
    have h2 : update_old_paired bs.flatten :=
      ih (fun x hx => hb x (List.mem_cons_of_mem _ hx))
    rw [List.flatten_cons]
    rcases h1 with h | h | h | h | h <;> subst h
    · simpa using h2
    · simpa using update_old_paired_cons_single _ (by decide) _ h2
    · simpa using update_old_paired_cons_single _ (by decide) _ h2
    · simpa using update_old_paired_cons_pair _ h2
    · simpa using update_old_paired_cons_single _ (by decide) _ h2

/-- C10: a plugin_change call appends one of the shapes nothing, INSERT,
UPDATE_NEW, UPDATE_OLD immediately followed by UPDATE_NEW, or DELETE — so
UPDATE_OLD enters the buffer only back-to-back with its UPDATE_NEW; an
update captured without an old row image contributes only an UPDATE_NEW;
and any buffer formed by concatenating plugin_change outputs has every
UPDATE_OLD immediately followed by an UPDATE_NEW, so at replay time the
pending old row is consumed by the very next event. -/
theorem update_old_immediately_paired :
    (∀ (rm : Bool) (ch : ReorderBufferChange) (out : List (Nat × HeapTup)),
      plugin_change rm ch = .ok out → plugin_block_kinds (out.map Prod.fst)) ∧
    (∀ (ch : ReorderBufferChange) (out : List (Nat × HeapTup)),
      plugin_change true ch = .ok out → ch.action = .update → ch.oldtuple = none →
      out.map Prod.fst = [PG_SQUEEZE_CHANGE_UPDATE_NEW]) ∧
    (∀ (blocks : List (List Nat)), (∀ b ∈ blocks, plugin_block_kinds b) →
      update_old_paired blocks.flatten) := by
  refine ⟨?_, ?_, update_old_paired_flatten⟩
  · intro rm ch out h
    cases rm <;> cases hact : ch.action <;> cases hn : ch.newtuple <;>
        cases ho : ch.oldtuple <;>
        simp [plugin_change, hact, hn, ho] at h <;>
      (subst h; simp [plugin_block_kinds])
  · intro ch out h hact ho
    cases hn : ch.newtuple <;> simp [plugin_change, hact, hn, ho] at h
    subst h
    simp

/-- C10 witness: concrete plugin outputs for an update with an old image,
an update without one, and a concrete concatenation of blocks. -/
theorem update_old_immediately_paired_witness :
    plugin_block_kinds
      (([(PG_SQUEEZE_CHANGE_UPDATE_OLD, tupA),
         (PG_SQUEEZE_CHANGE_UPDATE_NEW, tupA2)] : List (Nat × HeapTup)).map
        Prod.fst) ∧
    (([(PG_SQUEEZE_CHANGE_UPDATE_NEW, tupA2)] : List (Nat × HeapTup)).map
        Prod.fst = [PG_SQUEEZE_CHANGE_UPDATE_NEW]) ∧
    update_old_paired
      ([[PG_SQUEEZE_CHANGE_UPDATE_OLD, PG_SQUEEZE_CHANGE_UPDATE_NEW],
        [PG_SQUEEZE_CHANGE_INSERT], [PG_SQUEEZE_CHANGE_DELETE]] : List (List Nat)).flatten :=
  ⟨update_old_immediately_paired.1 true
      { action := .update, oldtuple := some tupA, newtuple := some tupA2 } _ (by rfl),
   update_old_immediately_paired.2.1
      { action := .update, oldtuple := none, newtuple := some tupA2 } _ (by rfl)
      (by rfl) (by rfl),
   update_old_immediately_paired.2.2 _ (by decide)⟩

/-- If the cursor has reached the end bound, a well-formed remaining stream
holds no record below it. -/
theorem no_undecoded_of_reached (end_of_wal : Nat) :
    ∀ (pos : Nat) (wal : List WalRec), stream_ok end_of_wal pos wal = true →
      end_of_wal ≤ pos → no_undecoded_below end_of_wal wal = true := by
  intro pos wal
  induction wal generalizing pos with
  | nil => intro _ _; rfl
  | cons r rest ih =>
    intro h hle
    simp only [stream_ok, Bool.and_eq_true, decide_eq_true_eq] at h
    obtain ⟨⟨h1, h2⟩, h3⟩ := h
    simp only [no_undecoded_below, List.all_cons, Bool.and_eq_true, decide_eq_true_eq]
    refine ⟨by omega, ?_⟩
    have := ih r.endPos h3 (by omega)
    simpa [no_undecoded_below] using this

/-- If the cursor is still below the end bound, a well-formed remaining
stream holds a record below it (its head). -/
theorem undecoded_of_below (end_of_wal pos : Nat) (wal : List WalRec)
    (hs : stream_ok end_of_wal pos wal = true) (hlt : pos < end_of_wal) :
    no_undecoded_below end_of_wal wal = false := by
  cases wal with
  | nil =>
    simp only [stream_ok, decide_eq_true_eq] at hs
    omega
  | cons r rest =>
    simp only [stream_ok, Bool.and_eq_true, decide_eq_true_eq] at hs
    obtain ⟨⟨h1, _⟩, _⟩ := hs
    have hd : decide (end_of_wal ≤ r.startPos) = false := by
      simp only [decide_eq_false_iff_not]
      omega
    simp [no_undecoded_below, List.all_cons, hd]

/-- Main invariant of the decode loop: under a well-formed covering stream
and a reachable entry state, the returned truth of "EndRecPtr invalid or at
the bound" coincides with the remaining stream holding nothing below the
bound, and the loop only stops because the position condition failed, the
memory threshold was reached, or the deadline elapsed. -/
theorem decode_loop_spec (end_of_wal threshold : Nat) (mc : Option Nat) :
    ∀ (wal : List WalRec) (s : SysState),
      stream_ok end_of_wal (cur_pos s) wal = true →
      cur_pos s ≠ 0 →
      (s.startptr = 0 ∨ s.endRecPtr = 0) →
      (s.endRecPtr = 0 → s.dstate.data_size < threshold) →
      (((decode_loop end_of_wal threshold mc wal s).2.endRecPtr = 0 ∨
          end_of_wal ≤ (decode_loop end_of_wal threshold mc wal s).2.endRecPtr) ↔
        no_undecoded_below end_of_wal
          (decode_loop end_of_wal threshold mc wal s).1 = true) ∧
      (pos_cond end_of_wal (decode_loop end_of_wal threshold mc wal s).2 = false ∨
        threshold ≤ (decode_loop end_of_wal threshold mc wal s).2.dstate.data_size ∨
        processing_time_elapsed mc
          (decode_loop end_of_wal threshold mc wal s).2.now = true) := by
  intro wal
  induction wal with
  | nil =>
    intro s hs h2 h3 h4
    simp only [stream_ok, decide_eq_true_eq] at hs
    simp only [decode_loop]
    constructor
    · simp only [no_undecoded_below, List.all_nil, iff_true]
      rcases h3 with h3 | h3
      · right
        simpa [cur_pos, h3] using hs
      · left; exact h3
    · left
      rcases h3 with h3 | h3
      · have : end_of_wal ≤ s.endRecPtr := by simpa [cur_pos, h3] using hs
        simp [pos_cond, h3]
        omega
      · by_cases hsp : s.startptr = 0
        · simp [pos_cond, hsp, h3]
        · have : end_of_wal ≤ s.startptr := by simpa [cur_pos, hsp] using hs
          simp [pos_cond, h3, hsp]
          omega
  | cons r rest ih =>
    intro s hs h2 h3 h4
    simp only [stream_ok, Bool.and_eq_true, decide_eq_true_eq] at hs
    obtain ⟨⟨h1, hlt⟩, hrest⟩ := hs
    by_cases hc : (pos_cond end_of_wal s && decide (s.dstate.data_size < threshold)) = true
    · have hend0 : r.endPos ≠ 0 := by omega
      by_cases he : processing_time_elapsed mc (s.now + 1) = true
      · have hdl : decode_loop end_of_wal threshold mc (r :: rest) s =
            (rest, read_record r s) := by
          simp [decode_loop, hc, read_record, he]
        rw [hdl]
        constructor
        · simp only [read_record]
          by_cases hge : end_of_wal ≤ r.endPos
          · simp only [hge, or_true, true_iff]
            exact no_undecoded_of_reached end_of_wal r.endPos rest hrest hge
          · have := undecoded_of_below end_of_wal r.endPos rest hrest (by omega)
            simp [this, hend0]
            omega
        · right; right
          simpa [read_record] using he
      · have hdl : decode_loop end_of_wal threshold mc (r :: rest) s =
            decode_loop end_of_wal threshold mc rest (read_record r s) := by
          simp [decode_loop, hc, read_record, he]
        rw [hdl]
        apply ih
        · have hcp : cur_pos (read_record r s) = r.endPos := by
            simp [cur_pos, read_record]
          rw [hcp]
          exact hrest
        · simp [cur_pos, read_record]
          exact hend0
        · left
          simp [read_record]
        · intro hz
          simp [read_record] at hz
          exact absurd hz hend0
    · have hdl : decode_loop end_of_wal threshold mc (r :: rest) s =
          (r :: rest, s) := by
        simp [decode_loop, hc]
      rw [hdl]
      have hc' : pos_cond end_of_wal s = false ∨ threshold ≤ s.dstate.data_size := by
        rcases hp : pos_cond end_of_wal s with _ | _
        · exact Or.inl rfl
        · right
          rcases hq : decide (s.dstate.data_size < threshold) with _ | _
          · simp only [decide_eq_false_iff_not] at hq
            omega
          · rw [hp, hq] at hc
            simp at hc
      refine ⟨?_, by tauto⟩
      rcases h3 with h3 | h3
      · have hcur : cur_pos s = s.endRecPtr := by simp [cur_pos, h3]
        rw [hcur] at h1 hlt h2
        by_cases hge : end_of_wal ≤ s.endRecPtr
        · simp only [hge, or_true, true_iff]
          have : no_undecoded_below end_of_wal rest = true :=
            no_undecoded_of_reached end_of_wal r.endPos rest hrest (by omega)
          simp only [no_undecoded_below, List.all_cons, Bool.and_eq_true,
            decide_eq_true_eq]
          refine ⟨by omega, by simpa [no_undecoded_below] using this⟩
        · have hu : no_undecoded_below end_of_wal (r :: rest) = false := by
            have hd : decide (end_of_wal ≤ r.startPos) = false := by
              simp only [decide_eq_false_iff_not]
              omega
            simp [no_undecoded_below, List.all_cons, hd]
          simp [hu, h2]
          omega
      · rcases hc' with hpf | hds
        · have hsp : s.startptr ≠ 0 := by
            intro hsp0
            apply h2
            simp [cur_pos, hsp0, h3]
          have hcur : cur_pos s = s.startptr := by simp [cur_pos, hsp]
          rw [hcur] at h1 hlt
          have hge : end_of_wal ≤ s.startptr := by
            simp only [pos_cond, Bool.or_eq_false_iff, Bool.and_eq_false_iff] at hpf
            rcases hpf.1 with hx | hx
            · simp at hx
              exact absurd hx hsp
            · simp only [decide_eq_false_iff_not] at hx
              omega
          simp only [h3, true_or, true_iff]
          have : no_undecoded_below end_of_wal rest = true :=
            no_undecoded_of_reached end_of_wal r.endPos rest hrest (by omega)
          simp only [no_undecoded_below, List.all_cons, Bool.and_eq_true,
            decide_eq_true_eq]
          refine ⟨by omega, by simpa [no_undecoded_below] using this⟩
        · have := h4 h3
          omega

/-- C3: decoding stops only because the buffer's aggregate byte size passed
the memory threshold, the cursor reached the end bound (the position
condition failed), or the deadline was reached; and the call returns true
iff no undecoded data remains below the end bound.  The hypotheses say the
remaining stream is contiguous from the cursor and covers the bound, the
cursor is established, at most one of *startptr / EndRecPtr is set, and a
fresh reader starts below the memory threshold — all true of every call
process_concurrent_changes makes. -/
theorem decoder_stop_reasons_and_result (end_of_wal threshold : Nat)
    (mc : Option Nat) (wal : List WalRec) (s : SysState)
    (h1 : stream_ok end_of_wal (cur_pos s) wal = true)
    (h2 : cur_pos s ≠ 0)
    (h3 : s.startptr = 0 ∨ s.endRecPtr = 0)
    (h4 : s.endRecPtr = 0 → s.dstate.data_size < threshold) :
    ((decode_concurrent_changes end_of_wal threshold mc wal s).1 = true ↔
      no_undecoded_below end_of_wal
        (decode_concurrent_changes end_of_wal threshold mc wal s).2.1 = true) ∧
    (pos_cond end_of_wal
        (decode_concurrent_changes end_of_wal threshold mc wal s).2.2 = false ∨
      threshold ≤
        (decode_concurrent_changes end_of_wal threshold mc wal s).2.2.dstate.data_size ∨
      processing_time_elapsed mc
        (decode_concurrent_changes end_of_wal threshold mc wal s).2.2.now = true) := by
  have hmain := decode_loop_spec end_of_wal threshold mc wal s h1 h2 h3 h4
  unfold decode_concurrent_changes
  refine ⟨?_, hmain.2⟩
  have := hmain.1
  simpa [Bool.or_eq_true, beq_iff_eq, decide_eq_true_eq] using this

/-- The concrete initial decode state for the decoder witnesses. -/
def sys_state3 : SysState :=
  { startptr := 1, endRecPtr := 0, dstate := { tstore := [], nchanges := 0, data_size := 0 }
    heap := heap0, command_counter := 0, now := 0 }

/-- A one-record WAL stream from position 1 to 10. -/
def wal3 : List WalRec := [{ startPos := 1, endPos := 10, changes := [] }]

/-- C3 witness: a concrete drained run returns true with nothing left below
the bound and a failed position condition. -/
theorem decoder_stop_reasons_and_result_witness :
    stream_ok 10 (cur_pos sys_state3) wal3 = true ∧
    (((decode_concurrent_changes 10 1000 none wal3 sys_state3).1 = true ↔
      no_undecoded_below 10
        (decode_concurrent_changes 10 1000 none wal3 sys_state3).2.1 = true) ∧
    (pos_cond 10 (decode_concurrent_changes 10 1000 none wal3 sys_state3).2.2 = false ∨
      1000 ≤ (decode_concurrent_changes 10 1000 none wal3 sys_state3).2.2.dstate.data_size ∨
      processing_time_elapsed none
        (decode_concurrent_changes 10 1000 none wal3 sys_state3).2.2.now = true)) :=
  ⟨by decide,
   decoder_stop_reasons_and_result 10 1000 none wal3 sys_state3
     (by decide) (by decide) (by decide) (by decide)⟩

/-- data_size accounting of a batch of store_change calls. -/
theorem foldl_store_change_data_size :
    ∀ (l : List (Nat × HeapTup)) (d : DecodingOutputState),
      (l.foldl (fun d kt => store_change d kt.1 kt.2) d).data_size =
        d.data_size +
          (l.map (fun kt => (store_change_record kt.1 kt.2).varsize)).sum := by
  intro l
  induction l with
  | nil => intro d; simp
  | cons kt rest ih =>
    intro d
    rw [List.foldl_cons, ih]
    simp [store_change]
    omega

/-- nchanges accounting of a batch of store_change calls. -/
theorem foldl_store_change_nchanges :
    ∀ (l : List (Nat × HeapTup)) (d : DecodingOutputState),
      (l.foldl (fun d kt => store_change d kt.1 kt.2) d).nchanges =
        d.nchanges + l.length := by
  intro l
  induction l with
  | nil => intro d; simp
  | cons kt rest ih =>
    intro d
    rw [List.foldl_cons, ih]
    simp [store_change]
    omega

/-- With at most one change per record, each of size at most M, the decode
loop keeps data_size below threshold + M: the threshold is checked only at
the top of the loop, so it can be overshot by at most the last appended
event. -/
theorem decode_loop_size_bound (end_of_wal threshold : Nat) (mc : Option Nat)
    (M : Nat) :
    ∀ (wal : List WalRec) (s : SysState),
      (∀ r ∈ wal, r.changes.length ≤ 1) →
      (∀ r ∈ wal, ∀ kt ∈ r.changes, (store_change_record kt.1 kt.2).varsize ≤ M) →
      s.dstate.data_size < threshold + M →
      (decode_loop end_of_wal threshold mc wal s).2.dstate.data_size <
        threshold + M := by
  intro wal
  induction wal with
  | nil =>
    intro s _ _ h
    simpa [decode_loop] using h
  | cons r rest ih =>
    intro s hlen hsz hds
    by_cases hc : (pos_cond end_of_wal s && decide (s.dstate.data_size < threshold)) = true
    · have hth : s.dstate.data_size < threshold := by
        simp only [Bool.and_eq_true, decide_eq_true_eq] at hc
        exact hc.2
      have hsum : (r.changes.map
          (fun kt => (store_change_record kt.1 kt.2).varsize)).sum ≤ M := by
        rcases hch : r.changes with _ | ⟨kt, rest2⟩
        · simp
        · have hr2 : rest2 = [] := by
            have := hlen r (List.mem_cons_self r rest)
            rw [hch] at this
            simp only [List.length_cons] at this
            exact List.length_eq_zero.mp (by omega)
          subst hr2
          simp
          exact hsz r (List.mem_cons_self r rest) kt (by rw [hch]; exact List.mem_cons_self kt [])
      have hds' : (read_record r s).dstate.data_size < threshold + M := by
        simp only [read_record, foldl_store_change_data_size]
        omega
      by_cases he : processing_time_elapsed mc (s.now + 1) = true
      · have hdl : decode_loop end_of_wal threshold mc (r :: rest) s =
            (rest, read_record r s) := by
          simp [decode_loop, hc, read_record, he]
        rw [hdl]
        exact hds'
      · have hdl : decode_loop end_of_wal threshold mc (r :: rest) s =
            decode_loop end_of_wal threshold mc rest (read_record r s) := by
          simp [decode_loop, hc, read_record, he]
        rw [hdl]
        exact ih (read_record r s)
          (fun q hq => hlen q (List.mem_cons_of_mem r hq))
          (fun q hq kt hkt => hsz q (List.mem_cons_of_mem r hq) kt hkt) hds'
    · have hdl : decode_loop end_of_wal threshold mc (r :: rest) s =
          (r :: rest, s) := by
        simp [decode_loop, hc]
      rw [hdl]
      exact hds

/-- With at most one change per record and every change bigger than half the
threshold, the decode loop never buffers more than two events. -/
theorem decode_loop_two_changes (end_of_wal threshold : Nat) (mc : Option Nat) :
    ∀ (wal : List WalRec) (s : SysState),
      (∀ r ∈ wal, r.changes.length ≤ 1) →
      (∀ r ∈ wal, ∀ kt ∈ r.changes,
        threshold < 2 * (store_change_record kt.1 kt.2).varsize) →
      threshold * s.dstate.nchanges ≤ 2 * s.dstate.data_size →
      s.dstate.nchanges ≤ 2 →
      (decode_loop end_of_wal threshold mc wal s).2.dstate.nchanges ≤ 2 ∧
      threshold * (decode_loop end_of_wal threshold mc wal s).2.dstate.nchanges ≤
        2 * (decode_loop end_of_wal threshold mc wal s).2.dstate.data_size := by
  intro wal
  induction wal with
  | nil =>
    intro s _ _ hinv hn2
    simp only [decode_loop]
    exact ⟨hn2, hinv⟩
  | cons r rest ih =>
    intro s hlen hsz hinv hn2
    by_cases hc : (pos_cond end_of_wal s && decide (s.dstate.data_size < threshold)) = true
    · have hth : s.dstate.data_size < threshold := by
        simp only [Bool.and_eq_true, decide_eq_true_eq] at hc
        exact hc.2
      have hstep : (read_record r s).dstate.nchanges ≤ 2 ∧
          threshold * (read_record r s).dstate.nchanges ≤
            2 * (read_record r s).dstate.data_size := by
        rcases hch : r.changes with _ | ⟨kt, rest2⟩
        · simp only [read_record, hch, List.foldl_nil]
          exact ⟨hn2, hinv⟩
        · have hr2 : rest2 = [] := by
            have := hlen r (List.mem_cons_self r rest)
            rw [hch] at this
            simp only [List.length_cons] at this
            exact List.length_eq_zero.mp (by omega)
          subst hr2
          have hbig : threshold < 2 * (store_change_record kt.1 kt.2).varsize :=
            hsz r (List.mem_cons_self r rest) kt (by rw [hch]; exact List.mem_cons_self kt [])
          have hn : s.dstate.nchanges = 0 ∨ s.dstate.nchanges = 1 ∨
              s.dstate.nchanges = 2 := by omega
          simp only [read_record, hch, List.foldl_cons, List.foldl_nil, store_change]
          rcases hn with hn | hn | hn <;> rw [hn] at hinv ⊢ <;>
            constructor <;> omega
      by_cases he : processing_time_elapsed mc (s.now + 1) = true
      · have hdl : decode_loop end_of_wal threshold mc (r :: rest) s =
            (rest, read_record r s) := by
          simp [decode_loop, hc, read_record, he]
        rw [hdl]
        exact hstep
      · have hdl : decode_loop end_of_wal threshold mc (r :: rest) s =
            decode_loop end_of_wal threshold mc rest (read_record r s) := by
          simp [decode_loop, hc, read_record, he]
        rw [hdl]
        exact ih (read_record r s)
          (fun q hq => hlen q (List.mem_cons_of_mem r hq))
          (fun q hq kt hkt => hsz q (List.mem_cons_of_mem r hq) kt hkt)
          hstep.2 hstep.1
    · have hdl : decode_loop end_of_wal threshold mc (r :: rest) s =
          (r :: rest, s) := by
        simp [decode_loop, hc]
      rw [hdl]
      exact ⟨hn2, hinv⟩

/-- C7: the buffer's aggregate byte size is compared with the memory
threshold only at the top of the decode loop, so (first part) starting
below the threshold it ends below threshold + M when every appended event is
at most M bytes (one event per stream record), i.e. the excess is at most
the last appended event; and (second part) with every incoming event bigger
than half the threshold, decoding stops with at most two buffered events. -/
theorem threshold_checked_at_loop_top_only :
    (∀ (end_of_wal threshold : Nat) (mc : Option Nat) (M : Nat)
        (wal : List WalRec) (s : SysState),
      (∀ r ∈ wal, r.changes.length ≤ 1) →
      (∀ r ∈ wal, ∀ kt ∈ r.changes, (store_change_record kt.1 kt.2).varsize ≤ M) →
      s.dstate.data_size < threshold →
      (decode_loop end_of_wal threshold mc wal s).2.dstate.data_size <
        threshold + M) ∧
    (∀ (end_of_wal threshold : Nat) (mc : Option Nat) (wal : List WalRec)
        (s : SysState),
      (∀ r ∈ wal, r.changes.length ≤ 1) →
      (∀ r ∈ wal, ∀ kt ∈ r.changes,
        threshold < 2 * (store_change_record kt.1 kt.2).varsize) →
      s.dstate.nchanges = 0 → s.dstate.data_size = 0 →
      (decode_loop end_of_wal threshold mc wal s).2.dstate.nchanges ≤ 2) := by
  constructor
  · intro end_of_wal threshold mc M wal s hlen hsz hds
    exact decode_loop_size_bound end_of_wal threshold mc M wal s hlen hsz (by omega)
  · intro end_of_wal threshold mc wal s hlen hsz hn hds
    exact (decode_loop_two_changes end_of_wal threshold mc wal s hlen hsz
      (by rw [hn, hds]; simp) (by omega)).1

/-- A 600-unit tuple: its stored record is 632 bytes, more than half of a
1000-byte threshold. -/
def tup600 : HeapTup := { t_len := 600, t_data := [] }

/-- Three one-event records, more than the threshold admits. -/
def walD : List WalRec :=
  [{ startPos := 1, endPos := 2, changes := [(PG_SQUEEZE_CHANGE_INSERT, tup600)] },
   { startPos := 2, endPos := 3, changes := [(PG_SQUEEZE_CHANGE_INSERT, tup600)] },
   { startPos := 3, endPos := 4, changes := [(PG_SQUEEZE_CHANGE_INSERT, tup600)] }]

/-- C7 witness: with threshold 1000 and 632-byte events, the concrete run
ends with data_size below 1000 + 632, at most two buffered events, and
records still unread in the source stream. -/
theorem threshold_checked_at_loop_top_only_witness :
    (decode_loop 100 1000 none walD sys_state3).2.dstate.data_size < 1000 + 632 ∧
    (decode_loop 100 1000 none walD sys_state3).2.dstate.nchanges ≤ 2 ∧
    (decode_loop 100 1000 none walD sys_state3).1 ≠ [] :=
  ⟨threshold_checked_at_loop_top_only.1 100 1000 none 632 walD sys_state3
      (by decide) (by decide) (by decide),
   threshold_checked_at_loop_top_only.2 100 1000 none walD sys_state3
      (by decide) (by decide) (by decide) (by decide),
   by decide⟩

/-- C6: when the deadline has been reached by the end of a decode call, the
coordinator iteration returns the incomplete-result value false immediately,
with the state exactly as decode left it: the buffered events are untouched,
no replay happened, and no consistency check ran (the result is the same for
any checker verdict cat_ok, even a failing one). -/
theorem deadline_returns_incomplete (end_of_wal threshold : Nat)
    (mc : Option Nat) (key : List Nat) (cat_ok : Bool) (fuel : Nat)
    (wal : List WalRec) (s : SysState)
    (h : processing_time_elapsed mc
      (decode_concurrent_changes end_of_wal threshold mc wal s).2.2.now = true) :
    process_loop end_of_wal threshold mc key cat_ok (fuel + 1) wal s =
      .ok (some false,
        (decode_concurrent_changes end_of_wal threshold mc wal s).2.1,
        (decode_concurrent_changes end_of_wal threshold mc wal s).2.2) := by
  simp [process_loop, h]

/-- C6 witness: with deadline 1, the concrete run reads one record, the
deadline passes during decode, and the coordinator returns false with the
decode state untouched, even though the checker oracle is failing. -/
theorem deadline_returns_incomplete_witness :
    processing_time_elapsed (some 1)
      (decode_concurrent_changes 10 1000 (some 1) wal3 sys_state3).2.2.now = true ∧
    process_loop 10 1000 (some 1) [1] false 1 wal3 sys_state3 =
      .ok (some false,
        (decode_concurrent_changes 10 1000 (some 1) wal3 sys_state3).2.1,
        (decode_concurrent_changes 10 1000 (some 1) wal3 sys_state3).2.2) :=
  ⟨by decide,
   deadline_returns_incomplete 10 1000 (some 1) [1] false 0 wal3 sys_state3 (by decide)⟩
